import Mathlib

-- Shallow embedding of the CVM catalog & schema-evolution engine of
-- fcjbispo/builds: src/fbpyutils_finance/cvm/__init__.py (catalog journal
-- reconciliation, history-file synchronisation, header fingerprinting and
-- mapping inheritance, expression/converter compilation) and
-- src/fbpyutils_finance/cvm/converters/__init__.py (typed converters).
-- Timestamps are modelled as `Option Int` (the journal stores them as
-- ISO-formatted TEXT whose lexicographic order agrees with chronological
-- order; `none` stands for SQL NULL / Python None / pandas NaN).

/-- Python string helpers are modelled on `List Char` with structural fuel
recursion (fuel is always called with `length + 1`, which is sufficient
because every step consumes at least one character), so that concrete
evaluations reduce in the kernel. This is `str.split(sep)` for a non-empty
separator: leftmost, non-overlapping matches; adjacent separators yield empty
fields, exactly as in Python. `cur` is the reversed current field. -/
def splitOnListAux (sep : List Char) (fuel : Nat) (cur : List Char) (x : List Char) :
    List (List Char) :=
  match fuel with
  | 0 => [cur.reverse]
  | fuel + 1 =>
    match x with
    | [] => [cur.reverse]
    | c :: cs =>
      if sep.isPrefixOf (c :: cs) then
        cur.reverse :: splitOnListAux sep fuel [] ((c :: cs).drop sep.length)
      else
        splitOnListAux sep fuel (c :: cur) cs

/-- Python `s.split(sep)` for the non-empty separators used by the source
(`";"`, `"-"`, `"."`, `"\n"`, `"_"`). Python raises on an empty separator;
that case is never exercised and is modelled as the whole string. -/
def pySplit (s sep : String) : List String :=
  if sep.data.isEmpty then [s]
  else (splitOnListAux sep.data (s.data.length + 1) [] s.data).map (fun l => ⟨l⟩)

/-- One pass of Python `str.replace(old, new)` on character lists: replaces
every leftmost non-overlapping occurrence of `old` with `new`, in a single
left-to-right scan. Structural fuel recursion; any `fuel ≥ x.length` computes
the replacement. -/
def replaceListAux (old new : List Char) (fuel : Nat) (x : List Char) : List Char :=
  match fuel with
  | 0 => x
  | fuel + 1 =>
    match x with
    | [] => []
    | c :: cs =>
      if old.isPrefixOf (c :: cs) then
        new ++ replaceListAux old new fuel ((c :: cs).drop old.length)
      else
        c :: replaceListAux old new fuel cs

/-- Python `s.replace(old, new)` for a non-empty `old` (the source only ever
replaces `"$X"`, `"_as_"`, `"/"`, `"-"`, `"."` and `"  "`). Python's
empty-`old` behaviour (interleaving) is never exercised and is modelled as the
identity. -/
def pyReplace (s old new : String) : String :=
  if old.data.isEmpty then s
  else ⟨replaceListAux old.data new.data (s.data.length + 1) s.data⟩

/-- Python `s.upper()` restricted to ASCII, which is all the source compares
(`'S'`, `'Y'`, `'1'`). -/
def pyUpper (s : String) : String := ⟨s.data.map Char.toUpper⟩

/-- Python `s.lower()` restricted to ASCII (used for target-field names and
file-name parts). -/
def pyLower (s : String) : String := ⟨s.data.map Char.toLower⟩

/-- Parse a non-empty all-digit character list as a natural number; `none`
otherwise. -/
def digitsToNat? (cs : List Char) : Option Nat :=
  if cs.isEmpty then Option.none
  else if cs.all Char.isDigit then
    some (cs.foldl (fun n c => 10 * n + (c.toNat - 48)) 0)
  else Option.none

/-- A Python value as it occurs in the embedded fragments: `None`, `str`,
`bool`, `int`, `float` (a parsed decimal `n / 10 ^ e`, which is exact for the
CVM feeds' plain decimal literals) and `datetime.date` (year, month, day). -/
inductive PyVal where
  | none : PyVal
  | str : String → PyVal
  | bool : Bool → PyVal
  | int : Int → PyVal
  | float : Int → Nat → PyVal
  | date : Nat → Nat → Nat → PyVal
deriving DecidableEq, Repr

/-- Python truthiness (`bool(x)`) for the values above. -/
def pyTruthy : PyVal → Bool
  | PyVal.none => false
  | PyVal.str s => s != ""
  | PyVal.bool b => b
  | PyVal.int n => n != 0
  | PyVal.float n _ => n != 0
  | PyVal.date _ _ _ => true

/-- `_get_value_by_index_if_exists(x, y, z)` from cvm/__init__.py:
`x[y] if len(x) > y else z or None`. Python's `z or None` returns `z` when `z`
is truthy and `None` otherwise. Negative indices never reach the `x[y]` branch
for `y : Nat`, matching the claim's domain `y ≥ 0`. -/
def get_value_by_index_if_exists (x : List PyVal) (y : Nat) (z : PyVal) : PyVal :=
  if x.length > y then (x.get? y).getD PyVal.none
  else if pyTruthy z then z else PyVal.none

/-- `is_nan_or_empty(x)` from cvm/converters/__init__.py
(`not x or pd.isna(x) or len(str(x)) == 0`), on the string-or-missing values
the converters receive (the data frame is read with `dtype=str`, so cells are
`str` or NaN; `none` models None/NaN). For a string the three Python tests
all reduce to "is the empty string". -/
def is_nan_or_empty (x : Option String) : Bool :=
  match x with
  | Option.none => true
  | some s => s == ""

/-- Modelled subset of Python `float(s)`: optional sign, decimal digits with
at most one point and at least one digit; no exponent, `inf`/`nan`,
underscores or surrounding whitespace (absent from the CVM numeric columns).
The result is the exact decimal `n / 10 ^ e`. `none` models `ValueError`. -/
def parsePyFloat (s : String) : Option (Int × Nat) :=
  let p : Bool × List Char :=
    match s.data with
    | '-' :: rest => (true, rest)
    | '+' :: rest => (false, rest)
    | l => (false, l)
  match splitOnListAux ['.'] (p.2.length + 1) [] p.2 with
  | [ip] => (digitsToNat? ip).map (fun n => (if p.1 then -(n : Int) else (n : Int), 0))
  | [ip, fp] =>
    if ip.isEmpty && fp.isEmpty then Option.none
    else (digitsToNat? (ip ++ fp)).map
      (fun n => (if p.1 then -(n : Int) else (n : Int), fp.length))
  | _ => Option.none

/-- Python `int(f)` for a parsed decimal `n / 10 ^ e`: truncation toward
zero. -/
def floatToInt (n : Int) (e : Nat) : Int :=
  if n < 0 then -((n.natAbs / 10 ^ e : Nat) : Int) else ((n.natAbs / 10 ^ e : Nat) : Int)

/-- Modelled `datetime.strptime(s, '%Y-%m-%d').date()`: three dash-separated
digit groups with month in 1..12 and day in 1..31 (calendar-exact day upper
bounds are not needed by any claim). `none` models `ValueError`. -/
def parseDateYMD (s : String) : Option (Nat × Nat × Nat) :=
  match pySplit s "-" with
  | [ys, ms, ds] =>
    match digitsToNat? ys.data, digitsToNat? ms.data, digitsToNat? ds.data with
    | some y, some m, some d =>
      if 1 ≤ m ∧ m ≤ 12 ∧ 1 ≤ d ∧ d ≤ 31 then some (y, m, d) else Option.none
    | _, _, _ => Option.none
  | _ => Option.none

/-- `as_boolean(x)` from cvm/converters: `False` on the NaN/empty sentinel,
else `str(x).upper() in ('S', 'Y', '1')`. -/
def as_boolean (x : Option String) : Bool :=
  if is_nan_or_empty x then false
  else ["S", "Y", "1"].contains (pyUpper (x.getD ""))

/-- `as_date(x)` from cvm/converters: `None` on the NaN/empty sentinel, else
`datetime.strptime(x, '%Y-%m-%d').date()`; an unparsable value raises
`ValueError` (there is no try/except in `as_date`), modelled as `.error`. -/
def as_date (x : Option String) : Except Unit (Option (Nat × Nat × Nat)) :=
  if is_nan_or_empty x then Except.ok Option.none
  else
    match parseDateYMD (x.getD "") with
    | some d => Except.ok (some d)
    | Option.none => Except.error ()

/-- `as_float(x)` from cvm/converters: `None` on the NaN/empty sentinel, else
`float(str(x))` with `ValueError` caught and turned into `None`. -/
def as_float (x : Option String) : Option (Int × Nat) :=
  if is_nan_or_empty x then Option.none else parsePyFloat (x.getD "")

/-- `as_integer(x)` from cvm/converters: `0` on the NaN/empty sentinel, else
`int(float(x))` with `ValueError` caught and turned into `None`. -/
def as_integer (x : Option String) : Option Int :=
  if is_nan_or_empty x then some 0
  else (parsePyFloat (x.getD "")).map (fun p => floatToInt p.1 p.2)

/-- `as_string(x)` from cvm/converters: `None` on the NaN/empty sentinel,
else `str(x)`. -/
def as_string (x : Option String) : Option String :=
  if is_nan_or_empty x then Option.none else some (x.getD "")

/-- `as_string_id(x)` from cvm/converters: `None` on the NaN/empty sentinel,
else `str(x)` with `/`, `-` and `.` removed. -/
def as_string_id (x : Option String) : Option String :=
  if is_nan_or_empty x then Option.none
  else some (pyReplace (pyReplace (pyReplace (x.getD "") "/" "") "-" "") "." "")


/-- One row of the persisted header-mapping table (`if_headers_v4.xlsx` /
the records consumed by `_get_expression_and_converters` and produced by
`_get_cvm_updated_headers`). Excel NaN cells are `none`. -/
structure MappingRow where
  Kind : String
  Sub_Kind : String
  Header : String
  Hash : String
  Order : Int
  Target_Field : Option String
  Source_Field : Option String
  Transformation1 : Option String
  Transformation2 : Option String
  Transformation3 : Option String
  Converter : Option String
  Is_New : Bool
deriving DecidableEq, Repr

/-- The expression `_get_expression_and_converters` builds for one mapping
row: the literal `NULL` for an absent source field, else the source field
successively wrapped in up to three transformation templates, each applied
only when the previous one was present, with `$X` standing for the previous
expression. -/
def rowExpression (m : MappingRow) : String :=
  if is_nan_or_empty m.Source_Field then "NULL"
  else
    let e1 := m.Source_Field.getD ""
    if is_nan_or_empty m.Transformation1 then e1
    else
      let e2 := pyReplace (m.Transformation1.getD "") "$X" e1
      if is_nan_or_empty m.Transformation2 then e2
      else
        let e3 := pyReplace (m.Transformation2.getD "") "$X" e2
        if is_nan_or_empty m.Transformation3 then e3
        else pyReplace (m.Transformation3.getD "") "$X" e3

/-- A compiled converter: the data frame cell (`str` or NaN) to a Python
value, with `.error` modelling an uncaught exception inside the converter. -/
def ConvFn : Type := Option String → Except Unit PyVal

/-- `eval(m['Converter'].replace('_as_', 'as_'))` in
`_get_expression_and_converters`: resolves the stored symbolic name to the
converter function; an unknown name raises `NameError`, modelled as
`.error`. -/
def evalConverter (name : String) : Except Unit ConvFn :=
  match pyReplace name "_as_" "as_" with
  | "as_boolean" => Except.ok (fun v => Except.ok (PyVal.bool (as_boolean v)))
  | "as_date" => Except.ok (fun v => (as_date v).map (fun od =>
      match od with
      | Option.none => PyVal.none
      | some (y, m, d) => PyVal.date y m d))
  | "as_float" => Except.ok (fun v => Except.ok (match as_float v with
      | Option.none => PyVal.none
      | some (n, e) => PyVal.float n e))
  | "as_integer" => Except.ok (fun v => Except.ok (match as_integer v with
      | Option.none => PyVal.none
      | some n => PyVal.int n))
  | "as_string" => Except.ok (fun v => Except.ok (match as_string v with
      | Option.none => PyVal.none
      | some s => PyVal.str s))
  | "as_string_id" => Except.ok (fun v => Except.ok (match as_string_id v with
      | Option.none => PyVal.none
      | some s => PyVal.str s))
  | _ => Except.error ()

/-- The converter `_get_expression_and_converters` associates with one
mapping row: `eval` of the stored name when the `Converter` cell is present,
and `lambda x: None` when it is empty/NaN. -/
def rowConverter (m : MappingRow) : Except Unit ConvFn :=
  if is_nan_or_empty m.Converter then Except.ok (fun _ => Except.ok PyVal.none)
  else evalConverter (m.Converter.getD "")

/-- Loop body of `_get_expression_and_converters`: walks the mapping rows in
order, extending the expression list and the converter assignments. The
Python dict `converters` is modelled as the association list of assignments
in execution order (the dict's later-assignment-wins lookup is lookup from
the right). A row whose `Target_Field` is missing makes Python raise
(`None.lower()`), after the converter name has already been evaluated —
both error points are modelled in that order. -/
def get_expression_and_converters_aux :
    List MappingRow → List String → List (String × ConvFn) →
    Except Unit (List String × List (String × ConvFn))
  | [], es, cs => Except.ok (es, cs)
  | m :: ms, es, cs =>
    match rowConverter m with
    | Except.error e => Except.error e
    | Except.ok conv =>
      match m.Target_Field with
      | Option.none => Except.error ()
      | some tf =>
        get_expression_and_converters_aux ms
          (es ++ [rowExpression m ++ " AS " ++ pyLower tf])
          (cs ++ [(tf, conv)])

/-- `_get_expression_and_converters(mappings)` from cvm/__init__.py. -/
def get_expression_and_converters (ms : List MappingRow) :
    Except Unit (List String × List (String × ConvFn)) :=
  get_expression_and_converters_aux ms [] []

/-- A concrete mapping row whose `Converter` cell is empty (the situation of
claim C3): source field passed straight through with no transformation and no
converter name. -/
def rowWithoutConverter : MappingRow :=
  { Kind := "IF_POSITION", Sub_Kind := "DIARIO_FI", Header := "CNPJ_FUNDO;VL_TOTAL",
    Hash := "h0", Order := 1, Target_Field := some "total_value",
    Source_Field := some "VL_TOTAL", Transformation1 := Option.none,
    Transformation2 := Option.none, Transformation3 := Option.none,
    Converter := Option.none, Is_New := false }

/-- Join key of the catalog reconciliation: the SQL `using (href, name, kind)`
columns. -/
structure JKey where
  href : String
  name : String
  kind : String
deriving DecidableEq, Repr

/-- One row of `if_remote_files` as `update_cvm_catalog` stages it: the
remote listing entry after the size filter and url composition
(`history` and `url` are always populated by `_get_remote_files_list`). -/
structure RemoteEntry where
  key : JKey
  sequence : Option Int
  last_modified : Option Int
  size : Option Int
  history : Bool
  url : String
deriving DecidableEq, Repr

/-- One row of the prior `catalog_journal` table (every column nullable, as
read back from SQLite). -/
structure LocalEntry where
  key : JKey
  sequence : Option Int
  last_modified : Option Int
  size : Option Int
  history : Option Bool
  url : Option String
  last_download : Option Int
  last_updated : Option Int
  process : Option Int
  active : Option Int
deriving DecidableEq, Repr

/-- One row of the journal produced by the reconciliation query (the SELECT
list shared by its three branches). -/
structure JRow where
  sequence : Option Int
  href : Option String
  name : Option String
  last_modified : Option Int
  size : Option Int
  history : Option Bool
  url : Option String
  kind : Option String
  last_download : Option Int
  last_updated : Option Int
  process : Option Int
  active : Option Int
deriving DecidableEq, Repr

/-- `catalog_journal c full outer join if_remote_files r using (href, name,
kind)`: each local row paired with its key-matching remote row (NULL-padded
when absent), plus the unmatched remote rows NULL-padded on the local side.
This is the SQL join under the data model's per-side key uniqueness (the
journal and the remote listing are keyed by `(href, name, kind)`). -/
def fullOuterJoin (J : List LocalEntry) (R : List RemoteEntry) :
    List (Option LocalEntry × Option RemoteEntry) :=
  J.map (fun c => (some c, R.find? (fun r => r.key == c.key))) ++
    (R.filter (fun r => !(J.any (fun c => c.key == r.key)))).map
      (fun r => ((Option.none : Option LocalEntry), some r))

/-- First branch of the reconciliation query (`where c.sequence is null`):
remote columns, `NULL last_download, NULL last_updated, 1 process,
1 active`. -/
def newEntryRow (p : Option LocalEntry × Option RemoteEntry) : JRow :=
  { sequence := p.2.bind RemoteEntry.sequence
    href := p.2.map (fun r => r.key.href)
    name := p.2.map (fun r => r.key.name)
    last_modified := p.2.bind RemoteEntry.last_modified
    size := p.2.bind RemoteEntry.size
    history := p.2.map RemoteEntry.history
    url := p.2.map RemoteEntry.url
    kind := p.2.map (fun r => r.key.kind)
    last_download := Option.none
    last_updated := Option.none
    process := some 1
    active := some 1 }

/-- Second branch of the reconciliation query (`where r.sequence is null`):
local columns preserved, `0 process, 0 active` (the soft delete). -/
def softDeleteRow (p : Option LocalEntry × Option RemoteEntry) : JRow :=
  { sequence := p.1.bind LocalEntry.sequence
    href := p.1.map (fun c => c.key.href)
    name := p.1.map (fun c => c.key.name)
    last_modified := p.1.bind LocalEntry.last_modified
    size := p.1.bind LocalEntry.size
    history := p.1.bind LocalEntry.history
    url := p.1.bind LocalEntry.url
    kind := p.1.map (fun c => c.key.kind)
    last_download := p.1.bind LocalEntry.last_download
    last_updated := p.1.bind LocalEntry.last_updated
    process := some 0
    active := some 0 }

/-- The `case` expression of the third branch: `0` when `r.last_modified` is
null, else `1` when `c.last_download` is null, else `1` iff
`r.last_modified > c.last_download`. -/
def matchedProcess (lm ld : Option Int) : Int :=
  match lm with
  | Option.none => 0
  | some m =>
    match ld with
    | Option.none => 1
    | some d => if m > d then 1 else 0

/-- Third branch of the reconciliation query (`where r.sequence is not
null`): remote metadata columns, local `last_download`, `last_updated` and
`active`, and the recomputed `process`. -/
def matchedRow (p : Option LocalEntry × Option RemoteEntry) : JRow :=
  { sequence := p.2.bind RemoteEntry.sequence
    href := p.2.map (fun r => r.key.href)
    name := p.2.map (fun r => r.key.name)
    last_modified := p.2.bind RemoteEntry.last_modified
    size := p.2.bind RemoteEntry.size
    history := p.2.map RemoteEntry.history
    url := p.2.map RemoteEntry.url
    kind := p.2.map (fun r => r.key.kind)
    last_download := p.1.bind LocalEntry.last_download
    last_updated := p.1.bind LocalEntry.last_updated
    process := some (matchedProcess (p.2.bind RemoteEntry.last_modified)
      (p.1.bind LocalEntry.last_download))
    active := p.1.bind LocalEntry.active }

/-- The three-branch reconciliation query of `CVM.update_cvm_catalog`: the
full outer join filtered by the three `where` conditions on `c.sequence` /
`r.sequence`, each branch projected through its SELECT list, combined with
`union` (SQL UNION removes duplicate rows, treating NULLs as equal, which is
`List.dedup` on rows of `Option` columns). -/
def reconcile (J : List LocalEntry) (R : List RemoteEntry) : List JRow :=
  let joined := fullOuterJoin J R
  (((joined.filter (fun p => (p.1.bind LocalEntry.sequence).isNone)).map newEntryRow) ++
   ((joined.filter (fun p => (p.2.bind RemoteEntry.sequence).isNone)).map softDeleteRow) ++
   ((joined.filter (fun p => (p.2.bind RemoteEntry.sequence).isSome)).map matchedRow)).dedup

/-- A remote listing consisting of one well-formed file entry, with an empty
prior journal: the failing input of claim C1. -/
def c1Remote : RemoteEntry :=
  { key := { href := "inf_diario_fi_202401.zip", name := "inf_diario_fi_202401",
             kind := "IF_POSITION" },
    sequence := some 0, last_modified := some 5, size := some 100,
    history := false, url := "http://dados.cvm.gov.br/x" }

/-- Does a journal row carry the key of `c1Remote`? -/
def hasC1Key (row : JRow) : Bool :=
  row.href == some "inf_diario_fi_202401.zip" &&
    row.name == some "inf_diario_fi_202401" && row.kind == some "IF_POSITION"


/-- Per-entry status reported by `_update_cvm_history_file`. -/
inductive SyncStatus where
  | SUCCESS : SyncStatus
  | SKIP : SyncStatus
  | ERROR : SyncStatus
deriving DecidableEq, Repr

/-- A Python runtime error escaping `_update_cvm_history_file`
(`None > str` / `nan > str` raise `TypeError`). -/
inductive PyError where
  | typeError : PyError
deriving DecidableEq, Repr

/-- Content type sniffed from the downloaded bytes
(`magic.from_buffer`): a recognized text type, a zip archive with its member
names, or anything else. -/
inductive Mime where
  | text : Mime
  | zip : List String → Mime
  | unknown : Mime
deriving DecidableEq, Repr

/-- Observable outcome of one `_update_cvm_history_file` call: the statuses
of the result list, how many local files were written, and whether the
remote content was fetched at all. -/
structure SyncOutcome where
  statuses : List SyncStatus
  filesWritten : Nat
  downloaded : Bool
deriving DecidableEq, Repr

/-- The outcome of the `SKIP` branch: one SKIP entry, nothing fetched,
nothing written. -/
def skipOutcome : SyncOutcome :=
  { statuses := [SyncStatus.SKIP], filesWritten := 0, downloaded := false }

/-- The download half of `_update_cvm_history_file`: fetch, sniff, then one
written file and one SUCCESS per zip member, or one written file and one
SUCCESS for text content, or a single ERROR (nothing written) for an unknown
content type. -/
def downloadOutcome (content : Mime) : SyncOutcome :=
  match content with
  | Mime.zip members =>
    { statuses := members.map (fun _ => SyncStatus.SUCCESS),
      filesWritten := members.length, downloaded := true }
  | Mime.text => { statuses := [SyncStatus.SUCCESS], filesWritten := 1, downloaded := true }
  | Mime.unknown => { statuses := [SyncStatus.ERROR], filesWritten := 0, downloaded := true }

/-- `_update_cvm_history_file(if_metadata)` from cvm/__init__.py, as a
function of the entry's `last_modified`, `last_download` and the fetched
content type. The guard is
`is_nan_or_empty(last_download) or last_modified > last_download`; Python
evaluates the comparison only when `last_download` is present, and raises
`TypeError` there when `last_modified` is None/NaN (no status is produced in
that case). -/
def update_cvm_history_file (lm ld : Option Int) (content : Mime) :
    Except PyError SyncOutcome :=
  match ld with
  | Option.none => Except.ok (downloadOutcome content)
  | some d =>
    match lm with
    | Option.none => Except.error PyError.typeError
    | some m =>
      if m > d then Except.ok (downloadOutcome content)
      else Except.ok skipOutcome

/-- Consolidation step of `update_cvm_catalog`: for each processed entry only
the first element of its result list is kept, and SKIP results are dropped
before the per-`(name, kind)` aggregation
(`... for r in results if r[0][0] != 'SKIP'`). An empty per-entry result list
(an empty zip) would make Python raise on `r[0]`; that case is modelled by
skipping the entry. -/
def consolidateStatuses (results : List (List SyncStatus)) : List SyncStatus :=
  (results.filterMap List.head?).filter (fun s => s != SyncStatus.SKIP)

/-- `sum(case when status='ERROR' then 1 else 0 end)` over one
`(name, kind)` group of the consolidated results. -/
def errorsOf (sts : List SyncStatus) : Nat := sts.countP (fun s => s == SyncStatus.ERROR)

/-- `sum(case when status='SUCCESS' then 1 else 0 end)` over one group. -/
def successesOf (sts : List SyncStatus) : Nat :=
  sts.countP (fun s => s == SyncStatus.SUCCESS)

/-- `sum(case when status='SKIP' then 1 else 0 end)` over one group (always 0
after consolidation, since SKIP rows were dropped). -/
def skipsOf (sts : List SyncStatus) : Nat := sts.countP (fun s => s == SyncStatus.SKIP)

/-- The post-run condition under which `update_cvm_catalog` issues the
`update ... set last_download = ...` statement for a `(name, kind)` group:
`errors == 0 and (successes > 0 or skips > 0)`. -/
def shouldSetLastDownload (sts : List SyncStatus) : Bool :=
  errorsOf sts == 0 && (decide (0 < successesOf sts) || decide (0 < skipsOf sts))


/-- Python `s.startswith(p)`. -/
def pyStartsWith (s p : String) : Bool := p.data.isPrefixOf s.data

/-- `_get_cvm_file_metadata(cvm_file)` from cvm/__init__.py, as a function of
the file's base name (the last path component) and its first line.
`hashString` is `fbpyutils.string.hash_string`, an external collaborator
(the fbpyutils dependency is not part of this repository), passed in as a
parameter. Python's `file_name_parts[-2]` raises `IndexError` on a
single-part name; real names are always `kind.name.ext`, and the truncated
Nat index models only the exercised cases. -/
def get_cvm_file_metadata (hashString : String → String) (fileName firstLine : String) :
    String × String × String × String :=
  let parts := pySplit fileName "."
  let kind := pyUpper (parts.headD "")
  let metadataFile := parts.getD (parts.length - 2) ""
  let sub_kind :=
    if pyLower metadataFile == "cad_fi" || pyStartsWith (pyLower metadataFile) "inf_cadastral_fi"
    then "CAD_FI"
    else if pyStartsWith (pyLower metadataFile) "inf_diario_fi" then "DIARIO_FI"
    else pyUpper metadataFile
  let line := (pySplit firstLine "\n").headD ""
  (kind, sub_kind, line, hashString (kind ++ ";" ++ sub_kind ++ ";" ++ line))

/-- One row of the kind's curated template mapping (`if_header_mappings.xlsx`,
the per-`Header` record sets `_get_cvm_updated_headers` reads into
`header_mappings`). -/
structure TemplateRow where
  Order : Int
  Target_Field : Option String
  Source_Field : Option String
  Transformation1 : Option String
  Transformation2 : Option String
  Transformation3 : Option String
  Converter : Option String
deriving DecidableEq, Repr

/-- One element of the `if_source_headers` set: the metadata of one scanned
history file. -/
structure SourceHeader where
  Kind : String
  Sub_Kind : String
  Header : String
  Hash : String
deriving DecidableEq, Repr

/-- The mapping row `_get_cvm_updated_headers` appends for one template row
`m` of a new header: the template's target and order, with source and
transformations/converter kept only when the template's source field occurs
literally in the header's field list (`m['Source_Field'] in fields`; a null
template source is never `in` a list of strings). -/
def mkTemplateMapping (sh : SourceHeader) (m : TemplateRow) (found : Bool) : MappingRow :=
  { Kind := sh.Kind, Sub_Kind := sh.Sub_Kind, Header := sh.Header, Hash := sh.Hash,
    Order := m.Order, Target_Field := m.Target_Field,
    Source_Field := if found then m.Source_Field else Option.none,
    Transformation1 := if found then m.Transformation1 else Option.none,
    Transformation2 := if found then m.Transformation2 else Option.none,
    Transformation3 := if found then m.Transformation3 else Option.none,
    Converter := if found then m.Converter else Option.none,
    Is_New := true }

/-- The unmapped row appended for an orphan source field `f`:
`Target_Field=None, Source_Field=f`, everything else null, `Is_New=True`. -/
def orphanRow (sh : SourceHeader) (f : String) (ord : Int) : MappingRow :=
  { Kind := sh.Kind, Sub_Kind := sh.Sub_Kind, Header := sh.Header, Hash := sh.Hash,
    Order := ord, Target_Field := Option.none, Source_Field := some f,
    Transformation1 := Option.none, Transformation2 := Option.none,
    Transformation3 := Option.none, Converter := Option.none, Is_New := true }

/-- Body of the `for f in fields` orphan loop: append the unmapped row and
bump `max_order` when `f` is in neither `source_fields` nor `mapped_fields`
(both lists may contain `None` entries, which never equal a string). -/
def orphanStep (sh : SourceHeader) (sourceFields mappedFields : List (Option String))
    (st : List MappingRow × Int) (f : String) : List MappingRow × Int :=
  if !(sourceFields.contains (some f)) && !(mappedFields.contains (some f)) then
    (st.1 ++ [orphanRow sh f (st.2 + 1)], st.2 + 1)
  else st

/-- One iteration of the `for m in header_mapping[:]` loop of
`_get_cvm_updated_headers`: append the template-derived row for `m`, then —
still inside this per-template-row iteration, and only for sub-kinds
`CAD_FI`/`DIARIO_FI` — recompute `max_order`, `source_fields` (from the
template) and `mapped_fields` (source fields of ALL rows accumulated so far
that have a non-null target or a non-null transformation), and append one
unmapped row per header field found in neither, incrementing `max_order`. -/
def processTemplateRow (sh : SourceHeader) (fields : List String)
    (template : List TemplateRow) (acc : List MappingRow) (m : TemplateRow) :
    List MappingRow :=
  let found :=
    match m.Source_Field with
    | some sf => fields.contains sf
    | Option.none => false
  let acc := acc ++ [mkTemplateMapping sh m found]
  if sh.Sub_Kind == "CAD_FI" || sh.Sub_Kind == "DIARIO_FI" then
    let withSource := template.filter (fun h => h.Source_Field.isSome)
    let maxOrder := (withSource.map TemplateRow.Order).max?.getD 0
    let sourceFields := withSource.map TemplateRow.Source_Field
    let mappedFields :=
      (acc.filter (fun r => r.Target_Field.isSome)).map MappingRow.Source_Field ++
      (acc.filter (fun r => r.Transformation1.isSome)).map MappingRow.Source_Field ++
      (acc.filter (fun r => r.Transformation2.isSome)).map MappingRow.Source_Field ++
      (acc.filter (fun r => r.Transformation3.isSome)).map MappingRow.Source_Field
    (fields.foldl (orphanStep sh sourceFields mappedFields) (acc, maxOrder)).1
  else acc

/-- Processing of one source header by `_get_cvm_updated_headers`: a header
whose hash is already in the persisted headers file is left alone; a new hash
gets rows generated from the kind's template by the loop above, on the
header's `;`-separated field list. `existingHashes` is the
`existing_mappings` set, computed once from the persisted file before the
loop. Python's `max` raises on a template with no source fields at all; the
`getD 0` default models only the exercised, non-empty templates. -/
def processSourceHeader (templates : String → List TemplateRow)
    (existingHashes : List String) (acc : List MappingRow) (sh : SourceHeader) :
    List MappingRow :=
  if existingHashes.contains sh.Hash then acc
  else
    let template := templates sh.Kind
    let fields := pySplit sh.Header ";"
    template.foldl (processTemplateRow sh fields template) acc

/-- `_get_cvm_updated_headers(cvm_files)` from cvm/__init__.py, as a function
of the kind templates (`if_header_mappings.xlsx`), the persisted mapping rows
(`if_headers_v4.xlsx`) and the distinct source headers of the scanned files.
The result list starts as the persisted rows and is extended in place; the
SQL grouping by `(Kind, Sub_Kind)` visits each distinct source header exactly
once, modelled as a fold over the given list (the Python `set` makes the
visit order arbitrary). -/
def get_cvm_updated_headers (templates : String → List TemplateRow)
    (existing : List MappingRow) (sourceHeaders : List SourceHeader) : List MappingRow :=
  sourceHeaders.foldl (processSourceHeader templates (existing.map MappingRow.Hash)) existing

/-- A two-row template mapping fields `A` and `B`: part of the failing input
of claim C2. -/
def c2Template : List TemplateRow :=
  [{ Order := 1, Target_Field := some "a", Source_Field := some "A",
     Transformation1 := Option.none, Transformation2 := Option.none,
     Transformation3 := Option.none, Converter := some "as_string" },
   { Order := 2, Target_Field := some "b", Source_Field := some "B",
     Transformation1 := Option.none, Transformation2 := Option.none,
     Transformation3 := Option.none, Converter := some "as_string" }]

/-- A new `DIARIO_FI` header `A;B;X` whose field `X` is absent from the
template: the failing input of claim C2. -/
def c2Header : SourceHeader :=
  { Kind := "IF_POSITION", Sub_Kind := "DIARIO_FI", Header := "A;B;X", Hash := "h1" }

/-- Is this row the unmapped row surfacing orphan field `X`? -/
def isOrphanXRow (r : MappingRow) : Bool :=
  r.Target_Field == (Option.none : Option String) && r.Source_Field == some "X"


/-- Python `old in x` on character lists: does `old` occur as a contiguous
substring of `x`? -/
def containsSub (old : List Char) : List Char → Bool
  | [] => old.isEmpty
  | c :: cs => old.isPrefixOf (c :: cs) || containsSub old cs

/-- The `while old in x: x = x.replace(old, new)` loop of
`_replace_all(x, old, new)` from cvm/__init__.py, on character lists, with an
iteration budget: `none` means the budget was exhausted with the loop still
running. Each pass is one full `str.replace` (the same single-pass
replacement `replaceListAux` used by the other embedded string operations,
with its always-sufficient fuel `length + 1`). -/
def replaceAllLoopAux (budget : Nat) (old new x : List Char) : Option (List Char) :=
  match budget with
  | 0 => Option.none
  | budget + 1 =>
    if containsSub old x then
      replaceAllLoopAux budget old new (replaceListAux old new (x.length + 1) x)
    else some x

/-- `_replace_all(x, old, new)` terminates: some iteration budget suffices
for the while loop to exit. -/
def replaceAllTerminates (old new x : List Char) : Prop :=
  ∃ budget r, replaceAllLoopAux budget old new x = some r


/-- C4: (corrected) counterexample — `as_integer("-")` is `None`, not the
claimed `0`: `"-"` is not the NaN/empty sentinel, and `int(float("-"))`
raises `ValueError`, which `as_integer` catches and turns into `None`. -/
theorem c4_as_integer_dash_counterexample :
    as_integer (some "-") = Option.none ∧ as_integer (some "-") ≠ some 0 :=
  ⟨by decide, by decide⟩

/-- C4 (amended): the typed converters satisfy `as_boolean("S") == True`,
`as_boolean("n") == False`, `as_date("") == None`, `as_integer("-") == None`
(`as_integer` returns `0` only for the NaN/empty sentinel) and
`as_float("-") == None`. -/
theorem c4_converter_edge_cases :
    as_boolean (some "S") = true ∧ as_boolean (some "n") = false ∧
    as_date (some "") = Except.ok Option.none ∧
    as_integer (some "-") = Option.none ∧ as_integer (some "") = some 0 ∧
    as_float (some "-") = Option.none :=
  ⟨by decide, by decide, rfl, by decide, by decide, by decide⟩

/-- C9: for an out-of-range index, `_get_value_by_index_if_exists` returns
the default `z` exactly when `z` is truthy and `None` otherwise; in
particular the directory-listing caller's default `''` yields `None`,
never `''`. -/
theorem c9_default_only_when_truthy :
    ∀ (x : List PyVal) (y : Nat) (z : PyVal), x.length ≤ y →
      get_value_by_index_if_exists x y z = (if pyTruthy z then z else PyVal.none) ∧
      (pyTruthy z = true → get_value_by_index_if_exists x y z = z) ∧
      (pyTruthy z = false → get_value_by_index_if_exists x y z = PyVal.none) ∧
      get_value_by_index_if_exists x y (PyVal.str "") = PyVal.none := by
  intro x y z h
  have hx : ¬ (x.length > y) := by omega
  refine ⟨?_, ?_, ?_, ?_⟩
  · simp [get_value_by_index_if_exists, hx]
  · intro hz; simp [get_value_by_index_if_exists, hx, hz]
  · intro hz; simp [get_value_by_index_if_exists, hx, hz]
  · simp [get_value_by_index_if_exists, hx, pyTruthy]

/-- C9 witness: the concrete caller situation — empty row, index 0, default
`''` — produces `None`. -/
theorem c9_default_only_when_truthy_witness :
    get_value_by_index_if_exists [] 0 (PyVal.str "") = PyVal.none :=
  (c9_default_only_when_truthy [] 0 (PyVal.str "") (by decide)).2.2.2

/-- C3: (corrected) counterexample — compiling a single row with an empty
`Converter` cell and applying the resulting converter to `"abc"` yields
`None`, not `"abc"`: the missing-converter branch is `lambda x: None`, not an
identity pass-through. -/
theorem c3_missing_converter_not_identity :
    (get_expression_and_converters [rowWithoutConverter]).map
        (fun p => p.2.map (fun q => (q.1, q.2 (some "abc"))))
      = Except.ok [("total_value", Except.ok PyVal.none)] ∧
    (Except.ok PyVal.none : Except Unit PyVal) ≠ Except.ok (PyVal.str "abc") :=
  ⟨rfl, by simp⟩

/-- Helper: the converter-assignment accumulator of
`get_expression_and_converters_aux` is extended but never rewritten. -/
theorem get_expression_and_converters_aux_extends :
    ∀ (ms : List MappingRow) (es0 : List String) (cs0 : List (String × ConvFn))
      (es : List String) (cs : List (String × ConvFn)),
      get_expression_and_converters_aux ms es0 cs0 = Except.ok (es, cs) → cs0 <+: cs := by
  intro ms
  induction ms with
  | nil =>
    intro es0 cs0 es cs h
    simp only [get_expression_and_converters_aux] at h
    obtain ⟨h1, h2⟩ := Prod.mk.injEq .. ▸ Except.ok.inj h
    exact h2 ▸ List.prefix_refl cs0
  | cons m ms ih =>
    intro es0 cs0 es cs h
    simp only [get_expression_and_converters_aux] at h
    cases hconv : rowConverter m with
    | error e => rw [hconv] at h; exact absurd h (by simp)
    | ok conv =>
      rw [hconv] at h
      cases htf : m.Target_Field with
      | none => rw [htf] at h; exact absurd h (by simp)
      | some tf =>
        rw [htf] at h
        exact (List.prefix_append cs0 [(tf, conv)]).trans (ih _ _ _ _ h)

/-- C3 (amended): for every mapping row whose `Converter` cell is empty or
NaN, whenever `_get_expression_and_converters` succeeds, the converter it
associates with that row's `Target_Field` is the constant-`None` function —
the value is discarded (the column is blanked), not passed through. -/
theorem c3_missing_converter_constant_none :
    ∀ (ms : List MappingRow) (es : List String) (cs : List (String × ConvFn)),
      get_expression_and_converters ms = Except.ok (es, cs) →
      ∀ m ∈ ms, is_nan_or_empty m.Converter = true →
        ∃ tf cf, m.Target_Field = some tf ∧ (tf, cf) ∈ cs ∧
          ∀ v, cf v = Except.ok PyVal.none := by
  intro ms es cs h
  suffices H : ∀ (ms : List MappingRow) (es0 : List String) (cs0 : List (String × ConvFn))
      (es : List String) (cs : List (String × ConvFn)),
      get_expression_and_converters_aux ms es0 cs0 = Except.ok (es, cs) →
      ∀ m ∈ ms, is_nan_or_empty m.Converter = true →
        ∃ tf cf, m.Target_Field = some tf ∧ (tf, cf) ∈ cs ∧
          ∀ v, cf v = Except.ok PyVal.none by
    exact H ms [] [] es cs h
  clear h
  intro ms
  induction ms with
  | nil => intro _ _ _ _ _ m hm; exact absurd hm (by simp)
  | cons m0 ms ih =>
    intro es0 cs0 es cs h m hm hconv0
    simp only [get_expression_and_converters_aux] at h
    cases hconv : rowConverter m0 with
    | error e => rw [hconv] at h; exact absurd h (by simp)
    | ok conv =>
      rw [hconv] at h
      cases htf : m0.Target_Field with
      | none => rw [htf] at h; exact absurd h (by simp)
      | some tf =>
        rw [htf] at h
        rcases List.mem_cons.mp hm with hm0 | hmtail
        · subst hm0
          have hc : rowConverter m = Except.ok (fun _ => Except.ok PyVal.none) := by
            simp [rowConverter, hconv0]
          have hceq : conv = fun _ => Except.ok PyVal.none :=
            Except.ok.inj (hconv.symm.trans hc)
          refine ⟨tf, conv, htf, ?_, ?_⟩
          · exact (get_expression_and_converters_aux_extends ms _ _ _ _ h).subset
              (by simp)
          · intro v; rw [hceq]
        · exact ih _ _ _ _ h m hmtail hconv0

/-- C3 witness: the amended theorem at the concrete one-row input
`[rowWithoutConverter]`. -/
theorem c3_missing_converter_constant_none_witness :
    ∃ es cs, get_expression_and_converters [rowWithoutConverter] = Except.ok (es, cs) ∧
      ∃ tf cf, rowWithoutConverter.Target_Field = some tf ∧ (tf, cf) ∈ cs ∧
        ∀ v, cf v = Except.ok PyVal.none := by
  refine ⟨_, _, rfl, ?_⟩
  exact c3_missing_converter_constant_none [rowWithoutConverter] _ _ rfl
    rowWithoutConverter (List.mem_singleton.mpr rfl) (by decide)

/-- C1: (code bug) evaluating the three-branch reconciliation at a remote
listing with one well-formed entry and an empty prior journal: the entry's
key appears twice in the produced journal (once from the `c.sequence is
null` branch with `active=1` and once from the `r.sequence is not null`
branch with `active=NULL`), not exactly once as the claim states. -/
theorem c1_reconcile_duplicates_new_key :
    (reconcile [] [c1Remote]).countP hasC1Key = 2 ∧
    (reconcile [] [c1Remote]).countP hasC1Key ≠ 1 :=
  ⟨by decide, by decide⟩

/-- C2: (code bug) evaluating `_get_cvm_updated_headers` on a new
`DIARIO_FI` header `A;B;X` against a two-row template mapping `A` and `B`:
the orphan field `X` gets its unmapped row appended twice (once per
template-row iteration, because the orphan block is nested inside the
`for m in header_mapping` loop), not exactly once as the claim states. -/
theorem c2_orphan_row_appended_twice :
    (get_cvm_updated_headers (fun _ => c2Template) [] [c2Header]).countP isOrphanXRow = 2 ∧
    (get_cvm_updated_headers (fun _ => c2Template) [] [c2Header]).countP isOrphanXRow ≠ 1 :=
  ⟨by decide, by decide⟩

/-- Helper: every download outcome actually fetched the content. -/
theorem downloadOutcome_downloaded : ∀ content : Mime, (downloadOutcome content).downloaded = true := by
  intro content; cases content <;> rfl

/-- Helper: a download outcome is never the SKIP outcome. -/
theorem downloadOutcome_ne_skip : ∀ content : Mime, downloadOutcome content ≠ skipOutcome := by
  intro content h
  have := congrArg SyncOutcome.downloaded h
  rw [downloadOutcome_downloaded] at this
  exact absurd this (by decide)

/-- C6: (corrected) counterexample — with `last_modified` null and
`last_download` non-null, `_update_cvm_history_file` raises `TypeError` on
the `last_modified > last_download` comparison: it neither returns SKIP nor
attempts the download, contradicting the claim's "in every other case it
attempts the download". -/
theorem c6_null_last_modified_raises :
    update_cvm_history_file Option.none (some 0) Mime.text
        = Except.error PyError.typeError ∧
    ∀ out : SyncOutcome,
      update_cvm_history_file Option.none (some 0) Mime.text ≠ Except.ok out :=
  ⟨rfl, fun _ h => Except.noConfusion h⟩

/-- C6 (amended): `_update_cvm_history_file` returns SKIP — no download, no
file write — iff both timestamps are non-null and
`last_modified ≤ last_download`; it attempts the download when
`last_download` is null/empty or when both are non-null with
`last_modified > last_download`; and when `last_download` is non-null but
`last_modified` is null it raises `TypeError` instead of downloading. -/
theorem c6_skip_characterization :
    ∀ (lm ld : Option Int) (content : Mime),
      (update_cvm_history_file lm ld content = Except.ok skipOutcome ↔
        ∃ m d, lm = some m ∧ ld = some d ∧ m ≤ d) ∧
      (lm = Option.none → ld ≠ Option.none →
        update_cvm_history_file lm ld content = Except.error PyError.typeError) ∧
      ((ld = Option.none ∨ ∃ m d, lm = some m ∧ ld = some d ∧ d < m) →
        ∃ out, update_cvm_history_file lm ld content = Except.ok out ∧
          out.downloaded = true ∧ out ≠ skipOutcome) := by
  intro lm ld content
  refine ⟨?_, ?_, ?_⟩
  · constructor
    · intro h
      cases ld with
      | none =>
        exact absurd (Except.ok.inj h) (downloadOutcome_ne_skip content)
      | some d =>
        cases lm with
        | none => exact absurd h (by simp [update_cvm_history_file])
        | some m =>
          by_cases hmd : m > d
          · rw [update_cvm_history_file, if_pos hmd] at h
            exact absurd (Except.ok.inj h) (downloadOutcome_ne_skip content)
          · exact ⟨m, d, rfl, rfl, by omega⟩
    · rintro ⟨m, d, hlm, hld, hmd⟩
      subst hlm; subst hld
      rw [update_cvm_history_file, if_neg (by omega)]
  · intro hlm hld
    cases ld with
    | none => exact absurd rfl hld
    | some d => subst hlm; rfl
  · rintro (hld | ⟨m, d, hlm, hld, hmd⟩)
    · subst hld
      exact ⟨downloadOutcome content, rfl, downloadOutcome_downloaded content,
        downloadOutcome_ne_skip content⟩
    · subst hlm; subst hld
      refine ⟨downloadOutcome content, ?_, downloadOutcome_downloaded content,
        downloadOutcome_ne_skip content⟩
      rw [update_cvm_history_file, if_pos (by omega)]

/-- C6 witness: the amended theorem's SKIP direction at the concrete input
`last_modified = 1` and `last_download = 2`. -/
theorem c6_skip_characterization_witness :
    update_cvm_history_file (some 1) (some 2) Mime.text = Except.ok skipOutcome :=
  (c6_skip_characterization (some 1) (some 2) Mime.text).1.mpr
    ⟨1, 2, rfl, rfl, by omega⟩

/-- C7: when the downloaded content is neither a recognized text type nor a
zip archive, the entry's result is a single ERROR with nothing written; and
the post-run journal update never sets `last_download` for a `(name, kind)`
group whose consolidated results contain an ERROR status (`errors == 0` is
required by the update condition). -/
theorem c7_unknown_mime_error_and_no_journal_advance :
    ∀ (lm ld : Option Int),
      (ld = Option.none ∨ ∃ m d, lm = some m ∧ ld = some d ∧ d < m) →
      update_cvm_history_file lm ld Mime.unknown =
        Except.ok { statuses := [SyncStatus.ERROR], filesWritten := 0, downloaded := true } ∧
      (∀ sts : List SyncStatus, SyncStatus.ERROR ∈ sts →
        shouldSetLastDownload sts = false) ∧
      (∀ results : List (List SyncStatus),
        SyncStatus.ERROR ∈ consolidateStatuses results →
        shouldSetLastDownload (consolidateStatuses results) = false) := by
  intro lm ld h
  have herr : ∀ sts : List SyncStatus, SyncStatus.ERROR ∈ sts →
      shouldSetLastDownload sts = false := by
    intro sts hmem
    have hpos : 0 < errorsOf sts :=
      List.countP_pos_iff.mpr ⟨SyncStatus.ERROR, hmem, by decide⟩
    have : (errorsOf sts == 0) = false := by
      rw [beq_eq_false_iff_ne]
      omega
    simp [shouldSetLastDownload, this]
  refine ⟨?_, herr, fun results hmem => herr _ hmem⟩
  rcases h with hld | ⟨m, d, hlm, hld, hmd⟩
  · subst hld; rfl
  · subst hlm; subst hld
    rw [update_cvm_history_file, if_pos (by omega)]
    rfl

/-- C7 witness: the theorem at a never-downloaded entry
(`last_download = NULL`). -/
theorem c7_unknown_mime_witness :
    update_cvm_history_file Option.none Option.none Mime.unknown =
      Except.ok { statuses := [SyncStatus.ERROR], filesWritten := 0, downloaded := true } :=
  (c7_unknown_mime_error_and_no_journal_advance Option.none Option.none (Or.inl rfl)).1

/-- C5: for an entry present in both the remote listing and the journal
(matched on `(href, name, kind)`, with the sides' `sequence` columns
populated as the pipeline always writes them), reconciliation produces
exactly the matched-branch row: `sequence`, `last_modified`, `size` and
`url` from the remote record, `last_download`, `last_updated` and `active`
preserved from the local record, and `process` recomputed as 0 when the
remote `last_modified` is null, else 1 when the local `last_download` is
null, else 1 iff `last_modified > last_download`. -/
theorem c5_matched_entry_row :
    ∀ (c : LocalEntry) (r : RemoteEntry), c.key = r.key →
      c.sequence.isSome → r.sequence.isSome →
      reconcile [c] [r] =
        [{ sequence := r.sequence, href := some r.key.href, name := some r.key.name,
           last_modified := r.last_modified, size := r.size, history := some r.history,
           url := some r.url, kind := some r.key.kind,
           last_download := c.last_download, last_updated := c.last_updated,
           process := some (match r.last_modified, c.last_download with
             | Option.none, _ => 0
             | some _, Option.none => 1
             | some m, some d => if m > d then 1 else 0),
           active := c.active }] := by
  intro c r hkey hc hr
  obtain ⟨cs, hcs⟩ := Option.isSome_iff_exists.mp hc
  obtain ⟨rs, hrs⟩ := Option.isSome_iff_exists.mp hr
  have hbeq : (r.key == c.key) = true := beq_iff_eq.mpr hkey.symm
  have hbeq2 : (c.key == r.key) = true := beq_iff_eq.mpr hkey
  simp only [reconcile, fullOuterJoin, List.map_cons, List.map_nil, List.find?,
    hbeq, List.any_cons, List.any_nil, hbeq2, Bool.or_false, Bool.not_true,
    List.filter, hcs, hrs, Option.bind_some, Option.isNone_some,
    Option.isSome_some, List.append_nil, List.nil_append]
  simp [matchedRow, matchedProcess, hcs, hrs]
  cases r.last_modified <;> cases c.last_download <;> rfl

/-- C5 witness: the matched-row theorem at a concrete pair — remote shows
`last_modified = 2`, journal has `last_download = 1`, so the remote metadata
wins, the local operational state is preserved and `process` recomputes
to 1. -/
theorem c5_matched_entry_row_witness :
    reconcile
      [{ key := { href := "h", name := "n", kind := "k" }, sequence := some 3,
         last_modified := some 1, size := some 10, history := some false,
         url := some "u0", last_download := some 1, last_updated := some 1,
         process := some 0, active := some 1 }]
      [{ key := { href := "h", name := "n", kind := "k" }, sequence := some 7,
         last_modified := some 2, size := some 20, history := false, url := "u1" }] =
      [{ sequence := some 7, href := some "h", name := some "n",
         last_modified := some 2, size := some 20, history := some false,
         url := some "u1", kind := some "k", last_download := some 1,
         last_updated := some 1, process := some 1, active := some 1 }] :=
  c5_matched_entry_row _ _ rfl rfl rfl

/-- Helper: a fold whose step only ever appends rows carrying a fixed hash
extends its accumulator with rows carrying that hash. -/
theorem foldl_extends_hash :
    ∀ (hash : String) (g : (List MappingRow × Int) → String → (List MappingRow × Int)),
      (∀ st f, ∃ ext, (g st f).1 = st.1 ++ ext ∧ ∀ r ∈ ext, r.Hash = hash) →
      ∀ (fields : List String) (st : List MappingRow × Int),
        ∃ ext, (fields.foldl g st).1 = st.1 ++ ext ∧ ∀ r ∈ ext, r.Hash = hash := by
  intro hash g hg fields
  induction fields with
  | nil => intro st; exact ⟨[], by simp, by simp⟩
  | cons f fs ih =>
    intro st
    obtain ⟨e1, he1, hh1⟩ := hg st f
    obtain ⟨e2, he2, hh2⟩ := ih (g st f)
    refine ⟨e1 ++ e2, ?_, ?_⟩
    · rw [List.foldl_cons, he2, he1, List.append_assoc]
    · intro r hr
      rcases List.mem_append.mp hr with h | h
      exacts [hh1 r h, hh2 r h]

/-- Helper: the orphan-loop step only ever appends rows carrying the
header's hash. -/
theorem orphanStep_extends :
    ∀ (sh : SourceHeader) (sourceFields mappedFields : List (Option String))
      (st : List MappingRow × Int) (f : String),
      ∃ ext, (orphanStep sh sourceFields mappedFields st f).1 = st.1 ++ ext ∧
        ∀ r ∈ ext, r.Hash = sh.Hash := by
  intro sh sourceFields mappedFields st f
  by_cases hc : (!(sourceFields.contains (some f)) && !(mappedFields.contains (some f))) = true
  · exact ⟨[orphanRow sh f (st.2 + 1)], by rw [orphanStep, if_pos hc], by simp [orphanRow]⟩
  · exact ⟨[], by rw [orphanStep, if_neg hc]; simp, by simp⟩

/-- Helper: one template-row iteration of `_get_cvm_updated_headers` only
appends rows whose `Hash` is the processed header's hash. -/
theorem processTemplateRow_extends :
    ∀ (sh : SourceHeader) (fields : List String) (template : List TemplateRow)
      (acc : List MappingRow) (m : TemplateRow),
      ∃ ext, processTemplateRow sh fields template acc m = acc ++ ext ∧
        ∀ r ∈ ext, r.Hash = sh.Hash := by
  intro sh fields template acc m
  simp only [processTemplateRow]
  by_cases hsk : (sh.Sub_Kind == "CAD_FI" || sh.Sub_Kind == "DIARIO_FI") = true
  · rw [if_pos hsk]
    obtain ⟨ext, hext, hh⟩ := foldl_extends_hash sh.Hash _
      (orphanStep_extends sh _ _) fields _
    refine ⟨[mkTemplateMapping sh m _] ++ ext, by rw [hext, List.append_assoc], ?_⟩
    intro r hr
    rcases List.mem_append.mp hr with h | h
    · rw [List.mem_singleton.mp h]; rfl
    · exact hh r h
  · rw [if_neg hsk]
    exact ⟨[mkTemplateMapping sh m _], rfl, fun r hr => by
      rw [List.mem_singleton.mp hr]; rfl⟩

/-- Helper: the whole template loop for one new header only appends rows
carrying that header's hash. -/
theorem foldl_processTemplateRow_extends :
    ∀ (sh : SourceHeader) (fields : List String) (template tmpl : List TemplateRow)
      (acc : List MappingRow),
      ∃ ext, tmpl.foldl (processTemplateRow sh fields template) acc = acc ++ ext ∧
        ∀ r ∈ ext, r.Hash = sh.Hash := by
  intro sh fields template tmpl
  induction tmpl with
  | nil => intro acc; exact ⟨[], by simp, by simp⟩
  | cons m tmpl ih =>
    intro acc
    obtain ⟨e1, he1, hh1⟩ := processTemplateRow_extends sh fields template acc m
    obtain ⟨e2, he2, hh2⟩ := ih (processTemplateRow sh fields template acc m)
    refine ⟨e1 ++ e2, ?_, ?_⟩
    · rw [List.foldl_cons, he2, he1, List.append_assoc]
    · intro r hr
      rcases List.mem_append.mp hr with h | h
      exacts [hh1 r h, hh2 r h]

/-- Helper: processing one source header either leaves the accumulated rows
alone (hash already persisted) or appends rows whose hash is not among the
persisted hashes. -/
theorem processSourceHeader_extends :
    ∀ (templates : String → List TemplateRow) (hashes : List String)
      (acc : List MappingRow) (sh : SourceHeader),
      ∃ ext, processSourceHeader templates hashes acc sh = acc ++ ext ∧
        ∀ r ∈ ext, ¬ r.Hash ∈ hashes := by
  intro templates hashes acc sh
  by_cases hmem : hashes.contains sh.Hash = true
  · exact ⟨[], by rw [processSourceHeader, if_pos hmem]; simp, by simp⟩
  · obtain ⟨ext, hext, hh⟩ :=
      foldl_processTemplateRow_extends sh (pySplit sh.Header ";") (templates sh.Kind)
        (templates sh.Kind) acc
    refine ⟨ext, by rw [processSourceHeader, if_neg hmem]; exact hext, ?_⟩
    intro r hr hrmem
    exact hmem (List.elem_eq_true_of_mem (hh r hr ▸ hrmem))

/-- C8: the header fingerprint is a deterministic function of
`(kind, sub_kind, header line)` — two files whose metadata agrees on those
three components always get the same hash — and `_get_cvm_updated_headers`
is replay-stable: the persisted mapping rows come back unchanged as a prefix
of the result, and every generated row beyond them carries a hash that was
not yet present in the persisted file. -/
theorem c8_fingerprint_and_replay_stability :
    (∀ (hashString : String → String) (f1 l1 f2 l2 : String),
      (get_cvm_file_metadata hashString f1 l1).1 = (get_cvm_file_metadata hashString f2 l2).1 →
      (get_cvm_file_metadata hashString f1 l1).2.1 =
        (get_cvm_file_metadata hashString f2 l2).2.1 →
      (get_cvm_file_metadata hashString f1 l1).2.2.1 =
        (get_cvm_file_metadata hashString f2 l2).2.2.1 →
      (get_cvm_file_metadata hashString f1 l1).2.2.2 =
        (get_cvm_file_metadata hashString f2 l2).2.2.2) ∧
    (∀ (templates : String → List TemplateRow) (existing : List MappingRow)
      (shs : List SourceHeader),
      existing <+: get_cvm_updated_headers templates existing shs ∧
      ∀ r ∈ (get_cvm_updated_headers templates existing shs).drop existing.length,
        ¬ r.Hash ∈ existing.map MappingRow.Hash) := by
  constructor
  · intro hashString f1 l1 f2 l2 h1 h2 h3
    show hashString ((get_cvm_file_metadata hashString f1 l1).1 ++ ";" ++
        (get_cvm_file_metadata hashString f1 l1).2.1 ++ ";" ++
        (get_cvm_file_metadata hashString f1 l1).2.2.1) =
      hashString ((get_cvm_file_metadata hashString f2 l2).1 ++ ";" ++
        (get_cvm_file_metadata hashString f2 l2).2.1 ++ ";" ++
        (get_cvm_file_metadata hashString f2 l2).2.2.1)
    rw [h1, h2, h3]
  · intro templates existing shs
    have H : ∀ (shs : List SourceHeader) (acc : List MappingRow),
        ∃ ext, shs.foldl (processSourceHeader templates
            (existing.map MappingRow.Hash)) acc = acc ++ ext ∧
          ∀ r ∈ ext, ¬ r.Hash ∈ existing.map MappingRow.Hash := by
      intro shs
      induction shs with
      | nil => intro acc; exact ⟨[], by simp, by simp⟩
      | cons sh shs ih =>
        intro acc
        obtain ⟨e1, he1, hh1⟩ :=
          processSourceHeader_extends templates (existing.map MappingRow.Hash) acc sh
        obtain ⟨e2, he2, hh2⟩ :=
          ih (processSourceHeader templates (existing.map MappingRow.Hash) acc sh)
        refine ⟨e1 ++ e2, ?_, ?_⟩
        · rw [List.foldl_cons, he2, he1, List.append_assoc]
        · intro r hr
          rcases List.mem_append.mp hr with h | h
          exacts [hh1 r h, hh2 r h]
    obtain ⟨ext, hext, hh⟩ := H shs existing
    rw [get_cvm_updated_headers, hext]
    exact ⟨⟨ext, rfl⟩, by rw [List.drop_left]; exact hh⟩

/-- C8 witness: two different file names that share kind `IF_POSITION`,
sub-kind `DIARIO_FI` and header line get the same fingerprint, and the
replay part at a concrete persisted row set and one already-seen header. -/
theorem c8_fingerprint_and_replay_stability_witness :
    (get_cvm_file_metadata (fun s => s) "if_position.inf_diario_fi_202401.csv" "H1;H2").2.2.2
      = (get_cvm_file_metadata (fun s => s) "if_position.inf_diario_fi_202502.csv" "H1;H2").2.2.2 ∧
    [] <+: get_cvm_updated_headers (fun _ => c2Template) [] [c2Header] :=
  ⟨c8_fingerprint_and_replay_stability.1 (fun s => s)
      "if_position.inf_diario_fi_202401.csv" "H1;H2"
      "if_position.inf_diario_fi_202502.csv" "H1;H2" (by decide) (by decide) (by decide),
    (c8_fingerprint_and_replay_stability.2 (fun _ => c2Template) [] [c2Header]).1⟩

/-- Helper: an occurrence of `p` survives prepending. -/
theorem containsSub_append_left :
    ∀ (p pre l : List Char), containsSub p l = true → containsSub p (pre ++ l) = true := by
  intro p pre l h
  induction pre with
  | nil => exact h
  | cons a pre ih => simp [containsSub, ih]

/-- Helper: one replacement pass for `old = "ab"`, `new = "bbaa"` turns an
occurrence of `"aab"` into an occurrence of `"abb"` (the `'a'` before the
replaced `"ab"` meets the leading `'b'` of the inserted `"bbaa"`). -/
theorem replace_preserves_aab :
    ∀ (fuel : Nat) (x : List Char), x.length ≤ fuel →
      containsSub ['a', 'a', 'b'] x = true →
      containsSub ['a', 'b', 'b']
        (replaceListAux ['a', 'b'] ['b', 'b', 'a', 'a'] fuel x) = true := by
  intro fuel
  induction fuel with
  | zero =>
    intro x hlen h
    have hx : x = [] := List.eq_nil_of_length_eq_zero (Nat.le_zero.mp hlen)
    subst hx
    simp [containsSub] at h
  | succ fuel ih =>
    intro x hlen h
    cases x with
    | nil => simp [containsSub] at h
    | cons c cs =>
      by_cases hpre : List.isPrefixOf ['a', 'b'] (c :: cs) = true
      · cases cs with
        | nil => simp [List.isPrefixOf] at hpre
        | cons c2 t =>
          simp [List.isPrefixOf] at hpre
          obtain ⟨h1, h2⟩ := hpre
          subst h1; subst h2
          rw [replaceListAux, if_pos (by simp [List.isPrefixOf])]
          rw [show (('a' :: 'b' :: t : List Char)).drop (['a', 'b'] : List Char).length
            = t from rfl]
          simp [containsSub, List.isPrefixOf] at h
          simp only [List.length_cons] at hlen
          exact containsSub_append_left _ _ _ (ih t (by omega) h)
      · rw [replaceListAux, if_neg hpre]
        rw [containsSub] at h
        rcases (Bool.or_eq_true _ _).mp h with h1 | h2
        · cases cs with
          | nil => simp [List.isPrefixOf] at h1
          | cons c2 cs2 =>
            cases cs2 with
            | nil => simp [List.isPrefixOf] at h1
            | cons c3 t =>
              simp [List.isPrefixOf] at h1
              obtain ⟨ha, hb, hcc⟩ := h1
              subst ha; subst hb; subst hcc
              simp only [List.length_cons] at hlen
              cases fuel with
              | zero => omega
              | succ f =>
                rw [replaceListAux, if_pos (by simp [List.isPrefixOf])]
                rw [show (('a' :: 'b' :: t : List Char)).drop
                  (['a', 'b'] : List Char).length = t from rfl]
                simp [containsSub, List.isPrefixOf]
        · simp only [List.length_cons] at hlen
          simp only [containsSub, ih cs (by omega) h2, Bool.or_true]

/-- Helper: one replacement pass for `old = "ab"`, `new = "bbaa"` turns an
occurrence of `"abb"` into an occurrence of `"aab"` (the trailing `"aa"` of
the inserted `"bbaa"` meets the `'b'` that followed the replaced `"ab"`). -/
theorem replace_preserves_abb :
    ∀ (fuel : Nat) (x : List Char), x.length ≤ fuel →
      containsSub ['a', 'b', 'b'] x = true →
      containsSub ['a', 'a', 'b']
        (replaceListAux ['a', 'b'] ['b', 'b', 'a', 'a'] fuel x) = true := by
  intro fuel
  induction fuel with
  | zero =>
    intro x hlen h
    have hx : x = [] := List.eq_nil_of_length_eq_zero (Nat.le_zero.mp hlen)
    subst hx
    simp [containsSub] at h
  | succ fuel ih =>
    intro x hlen h
    cases x with
    | nil => simp [containsSub] at h
    | cons c cs =>
      by_cases hpre : List.isPrefixOf ['a', 'b'] (c :: cs) = true
      · cases cs with
        | nil => simp [List.isPrefixOf] at hpre
        | cons c2 t =>
          simp [List.isPrefixOf] at hpre
          obtain ⟨h1, h2⟩ := hpre
          subst h1; subst h2
          rw [replaceListAux, if_pos (by simp [List.isPrefixOf])]
          rw [show (('a' :: 'b' :: t : List Char)).drop (['a', 'b'] : List Char).length
            = t from rfl]
          simp only [List.length_cons] at hlen
          cases t with
          | nil => simp [containsSub, List.isPrefixOf] at h
          | cons c3 t2 =>
            by_cases hc3 : c3 = 'b'
            · subst hc3
              cases fuel with
              | zero => omega
              | succ f =>
                rw [replaceListAux, if_neg (by simp [List.isPrefixOf])]
                simp [containsSub, List.isPrefixOf]
            · have ht : containsSub ['a', 'b', 'b'] (c3 :: t2) = true := by
                simp [containsSub, List.isPrefixOf] at h ⊢
                rcases h with h | h
                · exact absurd h.symm hc3
                · exact h
              exact containsSub_append_left _ _ _ (ih (c3 :: t2) (by omega) ht)
      · rw [replaceListAux, if_neg hpre]
        rw [containsSub] at h
        rcases (Bool.or_eq_true _ _).mp h with h1 | h2
        · cases cs with
          | nil => simp [List.isPrefixOf] at h1
          | cons c2 cs2 =>
            cases cs2 with
            | nil => simp [List.isPrefixOf] at h1
            | cons c3 t =>
              simp [List.isPrefixOf] at h1
              obtain ⟨ha, hb, hcc⟩ := h1
              subst ha; subst hb; subst hcc
              exact absurd (by simp [List.isPrefixOf]) hpre
        · simp only [List.length_cons] at hlen
          simp only [containsSub, ih cs (by omega) h2, Bool.or_true]

/-- Helper: a string containing `"aab"` contains `"ab"`. -/
theorem contains_ab_of_aab :
    ∀ x : List Char, containsSub ['a', 'a', 'b'] x = true →
      containsSub ['a', 'b'] x = true := by
  intro x
  induction x with
  | nil => intro h; simp [containsSub] at h
  | cons c cs ih =>
    intro h
    rw [containsSub] at h
    rcases (Bool.or_eq_true _ _).mp h with h1 | h2
    · cases cs with
      | nil => simp [List.isPrefixOf] at h1
      | cons c2 cs2 =>
        cases cs2 with
        | nil => simp [List.isPrefixOf] at h1
        | cons c3 t =>
          simp [List.isPrefixOf] at h1
          obtain ⟨ha, hb, hcc⟩ := h1
          subst ha; subst hb; subst hcc
          simp [containsSub, List.isPrefixOf]
    · simp [containsSub, ih h2]

/-- Helper: a string containing `"abb"` contains `"ab"`. -/
theorem contains_ab_of_abb :
    ∀ x : List Char, containsSub ['a', 'b', 'b'] x = true →
      containsSub ['a', 'b'] x = true := by
  intro x
  induction x with
  | nil => intro h; simp [containsSub] at h
  | cons c cs ih =>
    intro h
    rw [containsSub] at h
    rcases (Bool.or_eq_true _ _).mp h with h1 | h2
    · cases cs with
      | nil => simp [List.isPrefixOf] at h1
      | cons c2 cs2 =>
        cases cs2 with
        | nil => simp [List.isPrefixOf] at h1
        | cons c3 t =>
          simp [List.isPrefixOf] at h1
          obtain ⟨ha, hb, hcc⟩ := h1
          subst ha; subst hb; subst hcc
          simp [containsSub, List.isPrefixOf]
    · simp [containsSub, ih h2]

/-- Helper: from any string containing `"aab"` or `"abb"`, the
`_replace_all` loop with `old = "ab"`, `new = "bbaa"` never exits: each pass
preserves the invariant and the loop condition stays true, for every
iteration budget. -/
theorem replaceAllLoop_none_of_invariant :
    ∀ (budget : Nat) (x : List Char),
      (containsSub ['a', 'a', 'b'] x || containsSub ['a', 'b', 'b'] x) = true →
      replaceAllLoopAux budget ['a', 'b'] ['b', 'b', 'a', 'a'] x = Option.none := by
  intro budget
  induction budget with
  | zero => intro x _; rfl
  | succ budget ih =>
    intro x h
    have hab : containsSub ['a', 'b'] x = true := by
      rcases (Bool.or_eq_true _ _).mp h with h1 | h2
      exacts [contains_ab_of_aab x h1, contains_ab_of_abb x h2]
    rw [replaceAllLoopAux, if_pos hab]
    apply ih
    rcases (Bool.or_eq_true _ _).mp h with h1 | h2
    · simp [replace_preserves_aab (x.length + 1) x (by omega) h1]
    · simp [replace_preserves_abb (x.length + 1) x (by omega) h2]

/-- C10: (corrected) counterexample — with `old = "ab"` and `new = "bbaa"`
the claim's precondition holds (`old` is non-empty and `new` does not
contain `old`), yet on `x = "aab"` the `_replace_all` while-loop never
terminates: every replacement pass recreates an occurrence of `"ab"`. -/
theorem c10_replace_all_nonterminating :
    ¬ replaceAllTerminates ['a', 'b'] ['b', 'b', 'a', 'a'] ['a', 'a', 'b'] ∧
    (['a', 'b'] : List Char) ≠ [] ∧
    containsSub ['a', 'b'] ['b', 'b', 'a', 'a'] = false := by
  refine ⟨?_, by decide, by decide⟩
  rintro ⟨budget, r, h⟩
  rw [replaceAllLoop_none_of_invariant budget _ (by decide)] at h
  exact Option.noConfusion h

/-- Helper: a boolean prefix is no longer than the list it starts. -/
theorem isPrefixOfLengthLe :
    ∀ (p l : List Char), p.isPrefixOf l = true → p.length ≤ l.length := by
  intro p
  induction p with
  | nil => intro l _; simp
  | cons a p ih =>
    intro l h
    cases l with
    | nil => simp [List.isPrefixOf] at h
    | cons b l =>
      rw [List.isPrefixOf] at h
      obtain ⟨-, h2⟩ := (Bool.and_eq_true _ _).mp h
      have := ih l h2
      simp only [List.length_cons]
      omega

/-- Helper: when `new` is no longer than `old`, one replacement pass never
lengthens the string. -/
theorem replaceListAux_length_le :
    ∀ (old new : List Char), new.length ≤ old.length →
      ∀ (fuel : Nat) (x : List Char),
        (replaceListAux old new fuel x).length ≤ x.length := by
  intro old new hle fuel
  induction fuel with
  | zero => intro x; rw [replaceListAux]
  | succ fuel ih =>
    intro x
    cases x with
    | nil => rw [replaceListAux]
    | cons c cs =>
      rw [replaceListAux]
      by_cases hpre : old.isPrefixOf (c :: cs) = true
      · rw [if_pos hpre]
        have hol : old.length ≤ cs.length + 1 := by
          have := isPrefixOfLengthLe old (c :: cs) hpre
          simpa using this
        have hrec := ih ((c :: cs).drop old.length)
        have hdrop : ((c :: cs).drop old.length).length = cs.length + 1 - old.length := by
          simp [List.length_drop]
        simp only [List.length_append, List.length_cons]
        omega
      · rw [if_neg hpre]
        have hrec := ih cs
        simp only [List.length_cons]
        omega

/-- Helper: when `new` is strictly shorter than a non-empty `old` and `old`
occurs in `x`, one replacement pass strictly shortens the string. -/
theorem replaceListAux_length_lt :
    ∀ (old new : List Char), old ≠ [] → new.length < old.length →
      ∀ (fuel : Nat) (x : List Char), x.length ≤ fuel → containsSub old x = true →
        (replaceListAux old new fuel x).length < x.length := by
  intro old new hne hlt fuel
  induction fuel with
  | zero =>
    intro x hlen h
    have hx : x = [] := List.eq_nil_of_length_eq_zero (Nat.le_zero.mp hlen)
    subst hx
    cases old with
    | nil => exact absurd rfl hne
    | cons o os => simp [containsSub] at h
  | succ fuel ih =>
    intro x hlen h
    cases x with
    | nil =>
      cases old with
      | nil => exact absurd rfl hne
      | cons o os => simp [containsSub] at h
    | cons c cs =>
      rw [replaceListAux]
      by_cases hpre : old.isPrefixOf (c :: cs) = true
      · rw [if_pos hpre]
        have hol : old.length ≤ cs.length + 1 := by
          have := isPrefixOfLengthLe old (c :: cs) hpre
          simpa using this
        have hone : 1 ≤ old.length := by
          cases old with
          | nil => exact absurd rfl hne
          | cons o os => simp
        have hrec := replaceListAux_length_le old new (by omega) fuel
          ((c :: cs).drop old.length)
        have hdrop : ((c :: cs).drop old.length).length = cs.length + 1 - old.length := by
          simp [List.length_drop]
        simp only [List.length_append, List.length_cons]
        omega
      · rw [if_neg hpre]
        rw [containsSub] at h
        rcases (Bool.or_eq_true _ _).mp h with h1 | h2
        · exact absurd h1 hpre
        · have hlen2 : cs.length ≤ fuel := by
            simp only [List.length_cons] at hlen
            omega
          have hrec := ih cs hlen2 h2
          simp only [List.length_cons]
          omega

/-- C10 (amended): under the stronger precondition that `new` is strictly
shorter than the non-empty `old` — which the only caller satisfies, replacing
the double space `"  "` with the single space `" "` — `_replace_all`
terminates for every input string, and its result contains no occurrence of
`old`. (The claim's original precondition, `new` not containing `old`, is
not sufficient: see the non-termination counterexample.) -/
theorem c10_replace_all_terminates_when_new_shorter :
    ∀ (old new : List Char), old ≠ [] → new.length < old.length →
      ∀ x : List Char, ∃ budget r,
        replaceAllLoopAux budget old new x = some r ∧ containsSub old r = false := by
  intro old new hne hlt
  suffices H : ∀ (n : Nat) (x : List Char), x.length ≤ n → ∃ budget r,
      replaceAllLoopAux budget old new x = some r ∧ containsSub old r = false by
    exact fun x => H x.length x le_rfl
  intro n
  induction n with
  | zero =>
    intro x hx
    have hxnil : x = [] := List.eq_nil_of_length_eq_zero (Nat.le_zero.mp hx)
    subst hxnil
    have hc : containsSub old [] = false := by
      cases old with
      | nil => exact absurd rfl hne
      | cons o os => rfl
    exact ⟨1, [], by rw [replaceAllLoopAux, hc]; rfl, hc⟩
  | succ n ihn =>
    intro x hx
    by_cases hc : containsSub old x = true
    · have hlen := replaceListAux_length_lt old new hne hlt (x.length + 1) x
        (by omega) hc
      obtain ⟨budget, r, hrun, hr⟩ :=
        ihn (replaceListAux old new (x.length + 1) x) (by omega)
      exact ⟨budget + 1, r, by rw [replaceAllLoopAux, if_pos hc]; exact hrun, hr⟩
    · have hcf : containsSub old x = false := by
        cases hcc : containsSub old x with
        | false => rfl
        | true => exact absurd hcc hc
      exact ⟨1, x, by rw [replaceAllLoopAux, hcf]; rfl, hcf⟩

/-- C10 witness: the caller's instantiation — collapsing double spaces to a
single space — terminates on `"a  b"` and leaves no double space. -/
theorem c10_replace_all_terminates_witness :
    ∃ budget r,
      replaceAllLoopAux budget [' ', ' '] [' '] ['a', ' ', ' ', 'b'] = some r ∧
        containsSub [' ', ' '] r = false :=
  c10_replace_all_terminates_when_new_shorter [' ', ' '] [' '] (by decide) (by decide)
    ['a', ' ', ' ', 'b']
